import Mathlib

/-!
Verification of the speaker-service voiceprint engine
(`backend/python-services/speaker_service/speaker_model.py` and `utils.py`).

Embedding vectors (numpy float arrays) are modelled as `List ℝ`; the external
embedding extractor is a parameter `extract : String → Option (List ℝ)`
(`none` models a raised extraction error); persistence failures are modelled
by boolean parameters (`saveFail`, `unlinkFail`) selecting the exception
branch of the corresponding filesystem call.  The in-memory voiceprint dict
and the on-disk artifact directory are insertion-ordered association lists
keyed by `speaker_id`.
-/

namespace SpeakerService

/-! ### Vector primitives (numpy counterparts from `utils.py`) -/

/-- Model of `np.dot` on 1-D arrays: sum of elementwise products. -/
def dot (xs ys : List ℝ) : ℝ := (List.zipWith (fun a b => a * b) xs ys).sum

/-- Sum of squares of the entries (the square of `np.linalg.norm`). -/
def sqnorm (xs : List ℝ) : ℝ := (xs.map (fun x => x ^ 2)).sum

/-- Model of `np.linalg.norm`: the Euclidean norm. -/
noncomputable def l2norm (xs : List ℝ) : ℝ := Real.sqrt (sqnorm xs)

/-- Model of `v / np.linalg.norm(v)`: divide every entry by the Euclidean norm. -/
noncomputable def l2normalize (xs : List ℝ) : List ℝ := xs.map (fun x => x / l2norm xs)

/-- Elementwise sum of two equal-length vectors. -/
def vecAdd (xs ys : List ℝ) : List ℝ := List.zipWith (fun a b => a + b) xs ys

/-- Model of `np.mean(np.array vs, axis=0)` for a rectangular stack of row vectors:
sum the rows elementwise, then divide by the number of rows. -/
noncomputable def npMean : List (List ℝ) → List ℝ
  | [] => []
  | v :: rest =>
    (List.foldr vecAdd (List.replicate v.length (0 : ℝ)) (v :: rest)).map
      (fun x => x / (((v :: rest).length : ℕ) : ℝ))

/-- The element-wise arithmetic mean as the spec words it: the j-th entry of
the result is the arithmetic mean of the j-th entries of the inputs. -/
noncomputable def elementwiseMean (vs : List (List ℝ)) : List ℝ :=
  (List.range (vs.headD []).length).map
    (fun j => (vs.map (fun v => v.getD j 0)).sum / ((vs.length : ℕ) : ℝ))

/-- Model of `utils.calculate_similarity`: L2-normalize both embeddings, take the dot
product (cosine similarity), and rescale from [-1, 1] to [0, 1]. -/
noncomputable def calculate_similarity (emb1 emb2 : List ℝ) : ℝ :=
  (dot (l2normalize emb1) (l2normalize emb2) + 1) / 2

/-! ### Data model -/

/-- A persisted / in-memory voiceprint record (the dict built by
`register_speaker` / `register_speaker_batch`). -/
structure Voiceprint where
  speaker_id : String
  name : String
  user_id : Option String
  email : Option String
  embedding : List ℝ
  embeddings_all : List (List ℝ)
  created_at : String
  updated_at : String
  sample_count : ℕ

/-- Python dict assignment `d[k] = v`: replace in place when the key is
present, append otherwise. -/
def setEntry {α : Type} (m : List (String × α)) (k : String) (v : α) :
    List (String × α) :=
  if m.any (fun p => decide (p.1 = k)) then
    m.map (fun p => if p.1 = k then (k, v) else p)
  else m ++ [(k, v)]

/-- Python dict lookup `d.get(k)`. -/
def getEntry {α : Type} : List (String × α) → String → Option α
  | [], _ => none
  | p :: rest, k => if p.1 = k then some p.2 else getEntry rest k

/-- Python `del d[k]` / file unlink: drop the entries with key `k`. -/
def delEntry {α : Type} (m : List (String × α)) (k : String) : List (String × α) :=
  m.filter (fun p => decide (p.1 ≠ k))

/-- The mutable state of a `SpeakerModel`: the in-memory dict
`self.voiceprints` and the artifact files under `self.voiceprint_dir`. -/
structure SpeakerState where
  voiceprints : List (String × Voiceprint)
  files : List (String × Voiceprint)

/-! ### Operations of `SpeakerModel` -/

/-- Model of `SpeakerModel._save_voiceprint`: write the record's JSON artifact;
`saveFail` selects the exception branch (the exception is re-raised). -/
def save_voiceprint (saveFail : Bool) (st : SpeakerState) (speaker_id : String)
    (vp : Voiceprint) : Except String SpeakerState :=
  if saveFail then Except.error "save voiceprint failed"
  else Except.ok { st with files := setEntry st.files speaker_id vp }

/-- Model of `SpeakerModel.register_speaker` (single sample).  `extract` is the
external embedding extractor (`none` = raised extraction error); `speaker_id`
and `now` stand for `generate_speaker_id(name)` and the current timestamp.
Returns the outcome together with the post-call state. -/
def register_speaker (extract : String → Option (List ℝ)) (saveFail : Bool)
    (speaker_id now : String) (st : SpeakerState) (name : String)
    (audio_path : String) (user_id email : Option String) :
    Except String Voiceprint × SpeakerState :=
  match extract audio_path with
  | none => (Except.error "voiceprint registration failed: extraction", st)
  | some embedding =>
    let vp : Voiceprint :=
      { speaker_id := speaker_id, name := name, user_id := user_id, email := email
        embedding := embedding, embeddings_all := [embedding]
        created_at := now, updated_at := now, sample_count := 1 }
    match save_voiceprint saveFail st speaker_id vp with
    | Except.error e => (Except.error e, st)
    | Except.ok st1 =>
      (Except.ok vp, { st1 with voiceprints := setEntry st1.voiceprints speaker_id vp })

/-- Model of `SpeakerModel.register_speaker_batch`: extract an embedding per sample,
skipping samples whose extraction raises; fail when none survive; otherwise
aggregate by elementwise mean, L2-normalize, build the record, persist it,
and insert it into the in-memory dict. -/
noncomputable def register_speaker_batch (extract : String → Option (List ℝ))
    (saveFail : Bool) (speaker_id now : String) (st : SpeakerState) (name : String)
    (audio_paths : List String) (user_id email : Option String) :
    Except String Voiceprint × SpeakerState :=
  match audio_paths.filterMap extract with
  | [] => (Except.error "no embedding extracted from any sample", st)
  | e :: es =>
    let aggregated := l2normalize (npMean (e :: es))
    let vp : Voiceprint :=
      { speaker_id := speaker_id, name := name, user_id := user_id, email := email
        embedding := aggregated, embeddings_all := e :: es
        created_at := now, updated_at := now, sample_count := (e :: es).length }
    match save_voiceprint saveFail st speaker_id vp with
    | Except.error err => (Except.error err, st)
    | Except.ok st1 =>
      (Except.ok vp, { st1 with voiceprints := setEntry st1.voiceprints speaker_id vp })

/-- One entry of the list returned by `recognize_speaker`. -/
structure MatchResult where
  speaker_id : String
  name : String
  user_id : Option String
  email : Option String
  similarity : ℝ
  confidence : ℝ
  is_match : Bool

open Classical in
/-- Model of `SpeakerModel.recognize_speaker`: empty population short-circuits to `[]`;
otherwise extract the query embedding, score every enrolled voiceprint with
`calculate_similarity`, flag `is_match` against the configured threshold,
stable-sort descending by similarity, and keep the first `top_k`. -/
noncomputable def recognize_speaker (extract : String → Option (List ℝ))
    (threshold : ℝ) (st : SpeakerState) (audio_path : String) (top_k : ℕ) :
    Except String (List MatchResult) :=
  if st.voiceprints.isEmpty then Except.ok []
  else
    match extract audio_path with
    | none => Except.error "speaker recognition failed: extraction"
    | some query_embedding =>
      let ms := st.voiceprints.map (fun p =>
        let s := calculate_similarity query_embedding p.2.embedding
        { speaker_id := p.1, name := p.2.name, user_id := p.2.user_id
          email := p.2.email, similarity := s, confidence := s
          is_match := decide (s ≥ threshold) : MatchResult })
      Except.ok ((ms.mergeSort (fun a b => decide (b.similarity ≤ a.similarity))).take top_k)

/-- Model of `SpeakerModel.delete_speaker`.  `unlinkFail` selects the exception branch
of `voiceprint_file.unlink()`; the enclosing `try` turns any exception into a
`False` return, leaving the state untouched. -/
def delete_speaker (unlinkFail : Bool) (st : SpeakerState) (speaker_id : String) :
    Bool × SpeakerState :=
  match getEntry st.voiceprints speaker_id with
  | none => (false, st)
  | some _ =>
    if (getEntry st.files speaker_id).isSome then
      if unlinkFail then (false, st)
      else (true, { voiceprints := delEntry st.voiceprints speaker_id
                    files := delEntry st.files speaker_id })
    else (true, { st with voiceprints := delEntry st.voiceprints speaker_id })

/-- Loop body of `SpeakerModel._load_voiceprints`.  The source wraps the whole
`for` loop in one `try`, so hitting a corrupt artifact (`none`) abandons the
loop and returns what was accumulated so far. -/
def load_go (acc : List (String × Voiceprint)) :
    List (Option Voiceprint) → List (String × Voiceprint)
  | [] => acc
  | none :: _ => acc
  | some vp :: rest => load_go (setEntry acc vp.speaker_id vp) rest

/-- Model of `SpeakerModel._load_voiceprints`: fold the artifact directory listing into
the in-memory dict.  Each artifact is `some record` when it parses and `none`
when reading or parsing it raises. -/
def load_voiceprints (artifacts : List (Option Voiceprint)) :
    List (String × Voiceprint) :=
  load_go [] artifacts

/-- One diarization segment as returned by `SpeakerModel.diarization`. -/
structure DiarSegment where
  start_time : ℝ
  end_time : ℝ
  speaker_id : String
  confidence : ℝ

/-- Model of `SpeakerModel.diarization` (mock implementation): split the recording's
duration (`len(audio) / sr`) into `num_speakers or 2` equal consecutive
segments; `conf` models the random confidence draw per segment. -/
noncomputable def diarization (audio : List ℝ) (sr : ℕ) (num_speakers : Option ℕ)
    (conf : ℕ → ℝ) : List DiarSegment :=
  let duration : ℝ := (audio.length : ℝ) / (sr : ℝ)
  let n : ℕ := match num_speakers with
    | none => 2
    | some k => if k = 0 then 2 else k
  let segment_duration := duration / (n : ℝ)
  (List.range n).map (fun (i : ℕ) =>
    { start_time := (i : ℝ) * segment_duration
      end_time := ((i : ℝ) + 1) * segment_duration
      speaker_id := "speaker_" ++ toString (i + 1)
      confidence := conf i })

/-! ### Concrete fixtures used by witnesses and counterexamples -/

/-- A concrete record with `speaker_id = "a"`. -/
def vpA : Voiceprint :=
  { speaker_id := "a", name := "Alice", user_id := none, email := none
    embedding := [(1 : ℝ)], embeddings_all := [[(1 : ℝ)]]
    created_at := "t", updated_at := "t", sample_count := 1 }

/-- A concrete record with `speaker_id = "b"`. -/
def vpB : Voiceprint :=
  { speaker_id := "b", name := "Bob", user_id := none, email := none
    embedding := [(1 : ℝ)], embeddings_all := [[(1 : ℝ)]]
    created_at := "t", updated_at := "t", sample_count := 1 }

/-- A state holding exactly the record `vpA`, persisted and in memory. -/
def stA : SpeakerState := { voiceprints := [("a", vpA)], files := [("a", vpA)] }

/-! ### Association-list lemmas -/

theorem getEntry_map_set_of_any {α : Type} (m : List (String × α)) (k : String)
    (v : α) (h : m.any (fun p => decide (p.1 = k)) = true) :
    getEntry (m.map (fun p => if p.1 = k then (k, v) else p)) k = some v := by
  induction m with
  | nil => simp at h
  | cons p rest ih =>
    simp only [List.any_cons, Bool.or_eq_true, decide_eq_true_eq] at h
    by_cases hp : p.1 = k
    · simp [getEntry, hp]
    · simp only [List.map_cons, if_neg hp, getEntry]
      exact ih (h.resolve_left hp)

theorem getEntry_append_of_not_any {α : Type} (m l : List (String × α)) (k : String)
    (h : m.any (fun p => decide (p.1 = k)) = false) :
    getEntry (m ++ l) k = getEntry l k := by
  induction m with
  | nil => rfl
  | cons p rest ih =>
    simp only [List.any_cons, Bool.or_eq_false_iff, decide_eq_false_iff_not] at h
    simp only [List.cons_append, getEntry, if_neg h.1]
    exact ih (by simp [h.2])

theorem getEntry_setEntry_self {α : Type} (m : List (String × α)) (k : String) (v : α) :
    getEntry (setEntry m k v) k = some v := by
  unfold setEntry
  by_cases h : m.any (fun p => decide (p.1 = k)) = true
  · rw [if_pos h]
    exact getEntry_map_set_of_any m k v h
  · rw [if_neg h]
    rw [getEntry_append_of_not_any m _ k (by simp only [Bool.not_eq_true] at h; exact h)]
    simp [getEntry]

theorem getEntry_delEntry_self {α : Type} (m : List (String × α)) (k : String) :
    getEntry (delEntry m k) k = none := by
  induction m with
  | nil => rfl
  | cons p rest ih =>
    by_cases hp : p.1 = k
    · simpa [delEntry, hp] using ih
    · simpa [delEntry, getEntry, hp] using ih

/-- Processing a prefix with no corrupt artifact never hits the abort branch,
so loading distributes over the append. -/
theorem load_go_append (acc : List (String × Voiceprint))
    (pre rest : List (Option Voiceprint)) (h : ∀ a ∈ pre, a ≠ none) :
    load_go acc (pre ++ rest) = load_go (load_go acc pre) rest := by
  induction pre generalizing acc with
  | nil => rfl
  | cons a pre ih =>
    cases a with
    | none => exact absurd rfl (h none (by simp))
    | some vp =>
      simp only [List.cons_append, load_go]
      exact ih _ (fun x hx => h x (by simp [hx]))

/-- C4: if persisting the record's artifact fails during registration, the
in-memory voiceprint map is left unchanged (the record is never inserted) and
the error propagates to the caller rather than being reported as success. -/
theorem register_persist_failure_keeps_map (extract : String → Option (List ℝ))
    (speaker_id now : String) (st : SpeakerState) (name audio_path : String)
    (user_id email : Option String) (e : List ℝ)
    (hx : extract audio_path = some e) :
    (register_speaker extract true speaker_id now st name audio_path
        user_id email).2.voiceprints = st.voiceprints ∧
    ∃ msg, (register_speaker extract true speaker_id now st name audio_path
        user_id email).1 = Except.error msg := by
  refine ⟨?_, "save voiceprint failed", ?_⟩ <;>
    simp [register_speaker, hx, save_voiceprint]

/-- Witness for C4 at a concrete extractor, state and path. -/
theorem register_persist_failure_keeps_map_witness :
    (register_speaker (fun _ => some [(1 : ℝ)]) true "id" "t"
        { voiceprints := [], files := [] } "Alice" "a.wav" none none).2.voiceprints
      = ({ voiceprints := [], files := [] } : SpeakerState).voiceprints ∧
    ∃ msg, (register_speaker (fun _ => some [(1 : ℝ)]) true "id" "t"
        { voiceprints := [], files := [] } "Alice" "a.wav" none none).1
      = Except.error msg :=
  register_persist_failure_keeps_map (fun _ => some [(1 : ℝ)]) "id" "t"
    { voiceprints := [], files := [] } "Alice" "a.wav" none none [(1 : ℝ)] rfl

/-- C5 counterexample: with artifact listing [readable A, corrupt, readable B]
the loader returns only A — the readable artifact B that follows the corrupt
one is not loaded, refuting "every other readable artifact is still loaded". -/
theorem load_drops_artifacts_after_corrupt :
    load_voiceprints [some vpA, none, some vpB] = [("a", vpA)] ∧
    getEntry (load_voiceprints [some vpA, none, some vpB]) "b" = none := by
  exact ⟨rfl, rfl⟩

/-- C5 (amended): a corrupt or unreadable artifact stops the load at that
point — the artifacts before it are loaded and returned, the ones after it
are dropped, and the load returns normally instead of raising. -/
theorem load_stops_at_first_corrupt (pre post : List (Option Voiceprint))
    (h : ∀ a ∈ pre, a ≠ none) :
    load_voiceprints (pre ++ none :: post) = load_voiceprints pre := by
  unfold load_voiceprints
  rw [load_go_append [] pre (none :: post) h]
  rfl

/-- Witness for the amended C5 at a concrete artifact listing. -/
theorem load_stops_at_first_corrupt_witness :
    load_voiceprints ([some vpA] ++ none :: [some vpB]) = load_voiceprints [some vpA] :=
  load_stops_at_first_corrupt [some vpA] [some vpB] (by simp)

/-- C6: during batch registration every sample whose extraction fails is
skipped while the remaining samples are still processed (the surviving
embeddings are exactly `audio_paths.filterMap extract`, in order); the call
fails if and only if zero samples yield an embedding, and otherwise the
aggregated record is built, persisted and inserted in memory. -/
theorem register_batch_skip_and_fail_iff (extract : String → Option (List ℝ))
    (speaker_id now : String) (st : SpeakerState) (name : String)
    (audio_paths : List String) (user_id email : Option String) :
    (audio_paths.filterMap extract = [] →
      register_speaker_batch extract false speaker_id now st name audio_paths
          user_id email
        = (Except.error "no embedding extracted from any sample", st)) ∧
    (audio_paths.filterMap extract ≠ [] →
      ∃ vp, (register_speaker_batch extract false speaker_id now st name
              audio_paths user_id email).1 = Except.ok vp ∧
        vp.embeddings_all = audio_paths.filterMap extract ∧
        getEntry (register_speaker_batch extract false speaker_id now st name
            audio_paths user_id email).2.voiceprints speaker_id = some vp ∧
        getEntry (register_speaker_batch extract false speaker_id now st name
            audio_paths user_id email).2.files speaker_id = some vp) := by
  constructor
  · intro h
    simp [register_speaker_batch, h]
  · intro h
    cases hfm : audio_paths.filterMap extract with
    | nil => exact absurd hfm h
    | cons e es =>
      refine ⟨{ speaker_id := speaker_id, name := name, user_id := user_id
                email := email, embedding := l2normalize (npMean (e :: es))
                embeddings_all := e :: es, created_at := now, updated_at := now
                sample_count := (e :: es).length },
              ?_, ?_, ?_, ?_⟩ <;>
        simp [register_speaker_batch, hfm, save_voiceprint, getEntry_setEntry_self]

/-- Witness for C6 at a concrete always-succeeding extractor. -/
theorem register_batch_skip_and_fail_iff_witness :
    ∃ vp, (register_speaker_batch (fun _ => some [(1 : ℝ)]) false "id" "t"
            { voiceprints := [], files := [] } "Alice" ["a.wav"] none none).1
          = Except.ok vp ∧
      vp.embeddings_all = ["a.wav"].filterMap (fun _ => some [(1 : ℝ)]) ∧
      getEntry (register_speaker_batch (fun _ => some [(1 : ℝ)]) false "id" "t"
          { voiceprints := [], files := [] } "Alice" ["a.wav"] none
          none).2.voiceprints "id" = some vp ∧
      getEntry (register_speaker_batch (fun _ => some [(1 : ℝ)]) false "id" "t"
          { voiceprints := [], files := [] } "Alice" ["a.wav"] none
          none).2.files "id" = some vp :=
  (register_batch_skip_and_fail_iff (fun _ => some [(1 : ℝ)]) "id" "t"
    { voiceprints := [], files := [] } "Alice" ["a.wav"] none none).2 (by simp)

/-- C7: deleting an enrolled speaker returns true and removes both the
persisted artifact and the in-memory entry, after which a second delete
returns false with the state unchanged; deleting an id that was never
enrolled returns false and is not an error. -/
theorem delete_twice_and_unknown (st : SpeakerState) (speaker_id : String) :
    (getEntry st.voiceprints speaker_id = none →
      delete_speaker false st speaker_id = (false, st)) ∧
    ∀ vp, getEntry st.voiceprints speaker_id = some vp →
      (delete_speaker false st speaker_id).1 = true ∧
      getEntry (delete_speaker false st speaker_id).2.voiceprints speaker_id = none ∧
      getEntry (delete_speaker false st speaker_id).2.files speaker_id = none ∧
      delete_speaker false (delete_speaker false st speaker_id).2 speaker_id
        = (false, (delete_speaker false st speaker_id).2) := by
  constructor
  · intro h
    simp [delete_speaker, h]
  · intro vp h
    by_cases hf : (getEntry st.files speaker_id).isSome
    · simp [delete_speaker, h, hf, getEntry_delEntry_self]
    · have hf' : getEntry st.files speaker_id = none := by
        cases hfe : getEntry st.files speaker_id
        · rfl
        · rw [hfe] at hf; simp at hf
      simp [delete_speaker, h, hf', getEntry_delEntry_self]

/-- Witness for C7: a two-fold delete on the singleton state `stA`. -/
theorem delete_twice_and_unknown_witness :
    (delete_speaker false stA "a").1 = true ∧
    getEntry (delete_speaker false stA "a").2.voiceprints "a" = none ∧
    getEntry (delete_speaker false stA "a").2.files "a" = none ∧
    delete_speaker false (delete_speaker false stA "a").2 "a"
      = (false, (delete_speaker false stA "a").2) :=
  (delete_twice_and_unknown stA "a").2 vpA rfl

/-- C10: if an exception occurs while removing the persisted artifact, it is
caught and the call returns false with the state untouched — observably the
same `(false, unchanged-state)` outcome as deleting an unknown speaker_id. -/
theorem delete_unlink_failure_returns_false (st : SpeakerState)
    (speaker_id : String) (vp : Voiceprint)
    (hmem : getEntry st.voiceprints speaker_id = some vp)
    (hfile : (getEntry st.files speaker_id).isSome = true) :
    delete_speaker true st speaker_id = (false, st) ∧
    ∀ (st2 : SpeakerState) (sid2 : String) (b : Bool),
      getEntry st2.voiceprints sid2 = none →
        delete_speaker b st2 sid2 = (false, st2) := by
  constructor
  · simp [delete_speaker, hmem, hfile]
  · intro st2 sid2 b h
    simp [delete_speaker, h]

/-- Witness for C10 on the singleton state `stA`. -/
theorem delete_unlink_failure_returns_false_witness :
    delete_speaker true stA "a" = (false, stA) :=
  (delete_unlink_failure_returns_false stA "a" vpA rfl rfl).1

/-! ### Aggregation: `np.mean(..., axis=0)` versus the spec's elementwise mean -/

theorem getD_eq_getElem_of_lt {α : Type} {xs : List α} {j : ℕ} (d : α)
    (h : j < xs.length) : xs.getD j d = xs[j] := by
  rw [List.getD_eq_getElem?_getD, List.getElem?_eq_getElem h, Option.getD_some]

theorem length_foldr_vecAdd (vs : List (List ℝ)) (D : ℕ)
    (h : ∀ u ∈ vs, u.length = D) :
    (List.foldr vecAdd (List.replicate D (0 : ℝ)) vs).length = D := by
  induction vs with
  | nil => simp
  | cons u rest ih =>
    simp only [List.foldr_cons, vecAdd, List.length_zipWith]
    rw [ih (fun w hw => h w (List.mem_cons_of_mem _ hw)), h u (List.mem_cons_self _ _)]
    exact Nat.min_self D

theorem getD_foldr_vecAdd (vs : List (List ℝ)) (D j : ℕ)
    (h : ∀ u ∈ vs, u.length = D) (hj : j < D) :
    (List.foldr vecAdd (List.replicate D (0 : ℝ)) vs).getD j 0
      = (vs.map (fun u => u.getD j 0)).sum := by
  induction vs with
  | nil =>
    simp only [List.foldr_nil, List.map_nil, List.sum_nil]
    rw [getD_eq_getElem_of_lt (0 : ℝ) (by simpa using hj)]
    simp
  | cons u rest ih =>
    have hu : j < u.length := by rw [h u (List.mem_cons_self _ _)]; exact hj
    have hrest : ∀ w ∈ rest, w.length = D := fun w hw => h w (List.mem_cons_of_mem _ hw)
    have hlen : j < (List.foldr vecAdd (List.replicate D (0 : ℝ)) rest).length := by
      rw [length_foldr_vecAdd rest D hrest]; exact hj
    have hjz : j < (List.zipWith (fun a b => a + b) u
        (List.foldr vecAdd (List.replicate D (0 : ℝ)) rest)).length := by
      rw [List.length_zipWith]
      exact lt_min hu hlen
    simp only [List.foldr_cons, vecAdd, List.map_cons, List.sum_cons]
    rw [getD_eq_getElem_of_lt (0 : ℝ) hjz, List.getElem_zipWith,
      getD_eq_getElem_of_lt (0 : ℝ) hu, ← ih hrest,
      getD_eq_getElem_of_lt (0 : ℝ) hlen]

/-- The model of `np.mean(..., axis=0)` coincides with the spec's elementwise arithmetic
mean on every rectangular non-empty stack of vectors. -/
theorem npMean_eq_elementwiseMean (v : List ℝ) (rest : List (List ℝ)) (D : ℕ)
    (h : ∀ u ∈ v :: rest, u.length = D) :
    npMean (v :: rest) = elementwiseMean (v :: rest) := by
  have hv : v.length = D := h v (List.mem_cons_self _ _)
  simp only [npMean, elementwiseMean, List.headD_cons, hv]
  have hsumlen : (List.foldr vecAdd (List.replicate D (0 : ℝ)) (v :: rest)).length = D :=
    length_foldr_vecAdd _ D h
  apply List.ext_getElem
  · simp only [List.length_map, List.length_range]
    simpa using hsumlen
  · intro j h1 h2
    have hjD : j < D := by
      rw [List.length_map, hsumlen] at h1
      exact h1
    rw [List.getElem_map, List.getElem_map, List.getElem_range,
      ← getD_eq_getElem_of_lt (0 : ℝ) (by rw [hsumlen]; exact hjD),
      getD_foldr_vecAdd _ D j h hjD]

/-- C1: on every successful batch registration the stored record's
representative embedding is the L2-normalized elementwise arithmetic mean of
the successfully extracted sample embeddings, and `sample_count` equals the
length of the stored sample-embedding list. -/
theorem register_batch_aggregated_embedding (extract : String → Option (List ℝ))
    (speaker_id now : String) (st : SpeakerState) (name : String)
    (audio_paths : List String) (user_id email : Option String)
    (vp : Voiceprint) (D : ℕ)
    (hok : (register_speaker_batch extract false speaker_id now st name audio_paths
        user_id email).1 = Except.ok vp)
    (hdim : ∀ e ∈ audio_paths.filterMap extract, e.length = D) :
    getEntry (register_speaker_batch extract false speaker_id now st name audio_paths
        user_id email).2.voiceprints speaker_id = some vp ∧
    vp.embedding = l2normalize (elementwiseMean vp.embeddings_all) ∧
    vp.sample_count = vp.embeddings_all.length := by
  cases hfm : audio_paths.filterMap extract with
  | nil => simp [register_speaker_batch, hfm] at hok
  | cons e es =>
    rw [hfm] at hdim
    simp only [register_speaker_batch, hfm, save_voiceprint, if_neg (by simp : ¬(false = true))] at hok ⊢
    rw [Except.ok.injEq] at hok
    subst hok
    refine ⟨getEntry_setEntry_self _ _ _, ?_, rfl⟩
    rw [npMean_eq_elementwiseMean e es D hdim]

/-- A concrete aggregated record, as built by a one-sample batch
registration. -/
noncomputable def vpAgg : Voiceprint :=
  { speaker_id := "id", name := "Alice", user_id := none, email := none
    embedding := l2normalize (npMean [[(1 : ℝ)]])
    embeddings_all := [[(1 : ℝ)]], created_at := "t", updated_at := "t"
    sample_count := 1 }

/-- Witness for C1 at a concrete one-sample batch registration. -/
theorem register_batch_aggregated_embedding_witness :
    getEntry (register_speaker_batch (fun _ => some [(1 : ℝ)]) false "id" "t"
        { voiceprints := [], files := [] } "Alice" ["a.wav"] none
        none).2.voiceprints "id" = some vpAgg ∧
    vpAgg.embedding = l2normalize (elementwiseMean vpAgg.embeddings_all) ∧
    vpAgg.sample_count = vpAgg.embeddings_all.length :=
  register_batch_aggregated_embedding (fun _ => some [(1 : ℝ)]) "id" "t"
    { voiceprints := [], files := [] } "Alice" ["a.wav"] none none vpAgg 1 rfl
    (by intro e he; simp [List.mem_filterMap] at he; simp [he])

/-- C8: the aggregation producing the representative embedding depends only
on the multiset of the (equal-dimension) input embeddings: permuting the
input order leaves both the mean and its L2-normalization unchanged. -/
theorem aggregate_perm_invariant (vs vs' : List (List ℝ)) (D : ℕ)
    (hne : vs ≠ []) (hdim : ∀ u ∈ vs, u.length = D) (hperm : vs.Perm vs') :
    npMean vs = npMean vs' ∧ l2normalize (npMean vs) = l2normalize (npMean vs') := by
  have key : npMean vs = npMean vs' := by
    cases vs with
    | nil => exact absurd rfl hne
    | cons v rest =>
      cases vs' with
      | nil =>
        have hlen := hperm.length_eq
        simp at hlen
      | cons w rest' =>
        have hdim' : ∀ u ∈ w :: rest', u.length = D :=
          fun u hu => hdim u (hperm.mem_iff.mpr hu)
        rw [npMean_eq_elementwiseMean v rest D hdim,
          npMean_eq_elementwiseMean w rest' D hdim']
        unfold elementwiseMean
        rw [List.headD_cons, List.headD_cons, hdim v (List.mem_cons_self _ _),
          hdim' w (List.mem_cons_self _ _), hperm.length_eq]
        congr 1
        funext j
        rw [(hperm.map (fun u => u.getD j 0)).sum_eq]
  exact ⟨key, by rw [key]⟩

/-- Witness for C8: swapping two one-dimensional samples. -/
theorem aggregate_perm_invariant_witness :
    npMean [[(1 : ℝ)], [(2 : ℝ)]] = npMean [[(2 : ℝ)], [(1 : ℝ)]] ∧
    l2normalize (npMean [[(1 : ℝ)], [(2 : ℝ)]])
      = l2normalize (npMean [[(2 : ℝ)], [(1 : ℝ)]]) :=
  aggregate_perm_invariant [[(1 : ℝ)], [(2 : ℝ)]] [[(2 : ℝ)], [(1 : ℝ)]] 1
    (by simp)
    (by
      intro u hu
      simp only [List.mem_cons, List.not_mem_nil, or_false] at hu
      rcases hu with h | h <;> subst h <;> rfl)
    (List.Perm.swap _ _ _)

/-! ### Similarity bounds -/

theorem sqnorm_nonneg (xs : List ℝ) : 0 ≤ sqnorm xs := by
  refine List.sum_nonneg ?_
  intro x hx
  simp only [List.mem_map] at hx
  rcases hx with ⟨a, _, rfl⟩
  positivity

theorem dot_le_half_sum : ∀ xs ys : List ℝ, dot xs ys ≤ (sqnorm xs + sqnorm ys) / 2
  | [], ys => by
    have := sqnorm_nonneg ys
    simp only [dot, List.zipWith_nil_left, List.sum_nil, sqnorm, List.map_nil]
    simp only [sqnorm] at this
    linarith
  | x :: xs, [] => by
    have := sqnorm_nonneg (x :: xs)
    simp only [dot, List.zipWith_nil_right, List.sum_nil, sqnorm, List.map_nil]
    simp only [sqnorm] at this
    linarith
  | x :: xs, y :: ys => by
    have ih := dot_le_half_sum xs ys
    have hsq := sq_nonneg (x - y)
    simp only [dot, sqnorm, List.zipWith_cons_cons, List.sum_cons, List.map_cons] at ih ⊢
    nlinarith

theorem neg_half_sum_le_dot : ∀ xs ys : List ℝ, -((sqnorm xs + sqnorm ys) / 2) ≤ dot xs ys
  | [], ys => by
    have := sqnorm_nonneg ys
    simp only [dot, List.zipWith_nil_left, List.sum_nil, sqnorm, List.map_nil]
    simp only [sqnorm] at this
    linarith
  | x :: xs, [] => by
    have := sqnorm_nonneg (x :: xs)
    simp only [dot, List.zipWith_nil_right, List.sum_nil, sqnorm, List.map_nil]
    simp only [sqnorm] at this
    linarith
  | x :: xs, y :: ys => by
    have ih := neg_half_sum_le_dot xs ys
    have hsq := sq_nonneg (x + y)
    simp only [dot, sqnorm, List.zipWith_cons_cons, List.sum_cons, List.map_cons] at ih ⊢
    nlinarith

theorem sqnorm_map_div (xs : List ℝ) (c : ℝ) :
    sqnorm (xs.map (fun x => x / c)) = sqnorm xs / c ^ 2 := by
  induction xs with
  | nil => simp [sqnorm]
  | cons x xs ih =>
    simp only [List.map_cons, sqnorm, List.sum_cons] at ih ⊢
    rw [ih, div_pow, add_div]

theorem sqnorm_l2normalize (xs : List ℝ) (h : 0 < sqnorm xs) :
    sqnorm (l2normalize xs) = 1 := by
  unfold l2normalize l2norm
  rw [sqnorm_map_div, Real.sq_sqrt (le_of_lt h), div_self (ne_of_gt h)]

/-- C2: for non-zero embedding vectors the reported similarity is the cosine
similarity of their L2-normalized forms rescaled via `(cos + 1) / 2`, hence
lies in `[0, 1]`; and every match result of recognition has `is_match` true
exactly when its similarity reaches the configured threshold. -/
theorem similarity_range_and_threshold :
    (∀ e1 e2 : List ℝ, 0 < sqnorm e1 → 0 < sqnorm e2 →
      calculate_similarity e1 e2
          = (dot (l2normalize e1) (l2normalize e2) + 1) / 2 ∧
      0 ≤ calculate_similarity e1 e2 ∧ calculate_similarity e1 e2 ≤ 1) ∧
    (∀ (extract : String → Option (List ℝ)) (threshold : ℝ) (st : SpeakerState)
        (audio_path : String) (top_k : ℕ) (ms : List MatchResult),
      recognize_speaker extract threshold st audio_path top_k = Except.ok ms →
      ∀ m ∈ ms, (m.is_match = true ↔ m.similarity ≥ threshold)) := by
  constructor
  · intro e1 e2 h1 h2
    refine ⟨rfl, ?_, ?_⟩
    · have hd := neg_half_sum_le_dot (l2normalize e1) (l2normalize e2)
      rw [sqnorm_l2normalize e1 h1, sqnorm_l2normalize e2 h2] at hd
      unfold calculate_similarity
      linarith
    · have hd := dot_le_half_sum (l2normalize e1) (l2normalize e2)
      rw [sqnorm_l2normalize e1 h1, sqnorm_l2normalize e2 h2] at hd
      unfold calculate_similarity
      linarith
  · intro extract threshold st audio_path top_k ms hok m hm
    by_cases hemp : st.voiceprints.isEmpty
    · simp only [recognize_speaker, hemp, if_true, Except.ok.injEq] at hok
      rw [← hok] at hm
      simp at hm
    · cases hx : extract audio_path with
      | none => simp [recognize_speaker, hemp, hx] at hok
      | some q =>
        simp only [recognize_speaker, hemp, Bool.false_eq_true, if_false, hx,
          Except.ok.injEq] at hok
        rw [← hok] at hm
        have hm2 := List.mem_mergeSort.mp (List.mem_of_mem_take hm)
        rcases List.mem_map.mp hm2 with ⟨p, _, rfl⟩
        simp

/-- Witness for C2 on concrete one-dimensional unit vectors. -/
theorem similarity_range_and_threshold_witness :
    0 ≤ calculate_similarity [(1 : ℝ)] [(1 : ℝ)] ∧
    calculate_similarity [(1 : ℝ)] [(1 : ℝ)] ≤ 1 :=
  (similarity_range_and_threshold.1 [(1 : ℝ)] [(1 : ℝ)]
    (by norm_num [sqnorm]) (by norm_num [sqnorm])).2

/-- C3: recognition returns exactly `min(top_k, |population|)` results sorted
in descending order of similarity, and an empty population yields an empty
list rather than an error.  (With a non-empty population the query embedding
must extract successfully, otherwise the call raises.) -/
theorem recognize_count_and_sorted (extract : String → Option (List ℝ))
    (threshold : ℝ) (st : SpeakerState) (audio_path : String) (top_k : ℕ)
    (h : st.voiceprints = [] ∨ ∃ q, extract audio_path = some q) :
    ∃ ms, recognize_speaker extract threshold st audio_path top_k = Except.ok ms ∧
      ms.length = min top_k st.voiceprints.length ∧
      ms.Pairwise (fun a b => b.similarity ≤ a.similarity) ∧
      (st.voiceprints = [] → ms = []) := by
  by_cases hemp : st.voiceprints = []
  · refine ⟨[], ?_, ?_, List.Pairwise.nil, fun _ => rfl⟩
    · simp [recognize_speaker, hemp]
    · simp [hemp]
  · rcases h.resolve_left hemp with ⟨q, hq⟩
    have hne : st.voiceprints.isEmpty = false := by
      cases h' : st.voiceprints with
      | nil => exact absurd h' hemp
      | cons a l => rfl
    obtain ⟨ms, hms⟩ : ∃ ms,
        recognize_speaker extract threshold st audio_path top_k = Except.ok ms := by
      simp [recognize_speaker, hne, hq]
    refine ⟨ms, hms, ?_, ?_, fun he => absurd he hemp⟩
    all_goals
      simp only [recognize_speaker, hne, Bool.false_eq_true, if_false, hq,
        Except.ok.injEq] at hms
    · rw [← hms, List.length_take, List.length_mergeSort, List.length_map]
    · rw [← hms]
      have hsorted := @List.sorted_mergeSort MatchResult
        (fun a b : MatchResult => decide (b.similarity ≤ a.similarity))
        (fun a b c hab hbc => by
          simp only [decide_eq_true_eq] at hab hbc ⊢
          exact le_trans hbc hab)
        (fun a b => by
          simp only [Bool.or_eq_true, decide_eq_true_eq]
          exact le_total b.similarity a.similarity)
        (st.voiceprints.map (fun p =>
          let s := calculate_similarity q p.2.embedding
          { speaker_id := p.1, name := p.2.name, user_id := p.2.user_id
            email := p.2.email, similarity := s, confidence := s
            is_match := decide (s ≥ threshold) : MatchResult }))
      have hpw := hsorted.imp (fun {a b} hab => of_decide_eq_true hab)
      exact hpw.sublist (List.take_sublist _ _)

/-- Witness for C3: a singleton population with a successful extraction. -/
theorem recognize_count_and_sorted_witness :
    ∃ ms, recognize_speaker (fun _ => some [(1 : ℝ)]) 0.75 stA "q.wav" 5
        = Except.ok ms ∧
      ms.length = min 5 stA.voiceprints.length ∧
      ms.Pairwise (fun a b => b.similarity ≤ a.similarity) ∧
      (stA.voiceprints = [] → ms = []) :=
  recognize_count_and_sorted (fun _ => some [(1 : ℝ)]) 0.75 stA "q.wav" 5
    (Or.inr ⟨[(1 : ℝ)], rfl⟩)

/-- C9: for a recording of positive duration and a positive expected speaker
count, the mock diarization returns segments sorted by start time, pairwise
non-overlapping, each satisfying `0 ≤ start < end ≤ duration`, whose union
covers `[0, duration)` with no gaps. -/
theorem diarization_covers_duration (audio : List ℝ) (sr : ℕ) (k : ℕ)
    (conf : ℕ → ℝ) (hlen : 0 < audio.length) (hsr : 0 < sr) (hk : 0 < k) :
    (diarization audio sr (some k) conf).Pairwise
        (fun a b => a.start_time ≤ b.start_time) ∧
    (diarization audio sr (some k) conf).Pairwise
        (fun a b => a.end_time ≤ b.start_time) ∧
    (∀ s ∈ diarization audio sr (some k) conf,
      0 ≤ s.start_time ∧ s.start_time < s.end_time ∧
      s.end_time ≤ (audio.length : ℝ) / (sr : ℝ)) ∧
    ∀ x : ℝ, 0 ≤ x → x < (audio.length : ℝ) / (sr : ℝ) →
      ∃ s ∈ diarization audio sr (some k) conf,
        s.start_time ≤ x ∧ x < s.end_time := by
  have hkr : (0 : ℝ) < (k : ℝ) := by exact_mod_cast hk
  have hd : (0 : ℝ) < (audio.length : ℝ) / (sr : ℝ) :=
    div_pos (by exact_mod_cast hlen) (by exact_mod_cast hsr)
  have hsd0 : 0 < (audio.length : ℝ) / (sr : ℝ) / (k : ℝ) := div_pos hd hkr
  have hunfold : diarization audio sr (some k) conf
      = (List.range k).map (fun (i : ℕ) =>
          { start_time := (i : ℝ) * ((audio.length : ℝ) / (sr : ℝ) / (k : ℝ))
            end_time := ((i : ℝ) + 1) * ((audio.length : ℝ) / (sr : ℝ) / (k : ℝ))
            speaker_id := "speaker_" ++ toString (i + 1)
            confidence := conf i }) := by
    simp only [diarization]
    rw [if_neg (Nat.pos_iff_ne_zero.mp hk)]
  have hdk : (k : ℝ) * ((audio.length : ℝ) / (sr : ℝ) / (k : ℝ))
      = (audio.length : ℝ) / (sr : ℝ) := by
    field_simp
    ring
  refine ⟨?_, ?_, ?_, ?_⟩
  · rw [hunfold, List.pairwise_map]
    refine (List.pairwise_lt_range k).imp ?_
    intro i j hij
    exact mul_le_mul_of_nonneg_right (by exact_mod_cast hij.le) hsd0.le
  · rw [hunfold, List.pairwise_map]
    refine (List.pairwise_lt_range k).imp ?_
    intro i j hij
    have : ((i : ℝ) + 1) ≤ (j : ℝ) := by exact_mod_cast Nat.succ_le_of_lt hij
    exact mul_le_mul_of_nonneg_right this hsd0.le
  · intro s hs
    rw [hunfold] at hs
    rcases List.mem_map.mp hs with ⟨i, hi, rfl⟩
    have hik := List.mem_range.mp hi
    refine ⟨mul_nonneg (Nat.cast_nonneg i) hsd0.le, ?_, ?_⟩
    · exact mul_lt_mul_of_pos_right (lt_add_one _) hsd0
    · have h1 : ((i : ℝ) + 1) ≤ (k : ℝ) := by exact_mod_cast hik
      calc ((i : ℝ) + 1) * ((audio.length : ℝ) / (sr : ℝ) / (k : ℝ))
          ≤ (k : ℝ) * ((audio.length : ℝ) / (sr : ℝ) / (k : ℝ)) :=
            mul_le_mul_of_nonneg_right h1 hsd0.le
        _ = (audio.length : ℝ) / (sr : ℝ) := hdk
  · intro x hx0 hxd
    have hq0 : 0 ≤ x / ((audio.length : ℝ) / (sr : ℝ) / (k : ℝ)) :=
      div_nonneg hx0 hsd0.le
    have hik : ⌊x / ((audio.length : ℝ) / (sr : ℝ) / (k : ℝ))⌋₊ < k := by
      rw [Nat.floor_lt hq0, div_lt_iff₀ hsd0]
      calc x < (audio.length : ℝ) / (sr : ℝ) := hxd
        _ = (k : ℝ) * ((audio.length : ℝ) / (sr : ℝ) / (k : ℝ)) := hdk.symm
    rw [hunfold]
    refine ⟨_, List.mem_map.mpr
      ⟨⌊x / ((audio.length : ℝ) / (sr : ℝ) / (k : ℝ))⌋₊,
        List.mem_range.mpr hik, rfl⟩, ?_, ?_⟩
    · have h1 : (⌊x / ((audio.length : ℝ) / (sr : ℝ) / (k : ℝ))⌋₊ : ℝ)
          ≤ x / ((audio.length : ℝ) / (sr : ℝ) / (k : ℝ)) := Nat.floor_le hq0
      calc (⌊x / ((audio.length : ℝ) / (sr : ℝ) / (k : ℝ))⌋₊ : ℝ)
            * ((audio.length : ℝ) / (sr : ℝ) / (k : ℝ))
          ≤ (x / ((audio.length : ℝ) / (sr : ℝ) / (k : ℝ)))
            * ((audio.length : ℝ) / (sr : ℝ) / (k : ℝ)) :=
            mul_le_mul_of_nonneg_right h1 hsd0.le
        _ = x := div_mul_cancel₀ x hsd0.ne'
    · have h2 : x / ((audio.length : ℝ) / (sr : ℝ) / (k : ℝ))
          < (⌊x / ((audio.length : ℝ) / (sr : ℝ) / (k : ℝ))⌋₊ : ℝ) + 1 :=
        Nat.lt_floor_add_one _
      calc x = (x / ((audio.length : ℝ) / (sr : ℝ) / (k : ℝ)))
            * ((audio.length : ℝ) / (sr : ℝ) / (k : ℝ)) :=
            (div_mul_cancel₀ x hsd0.ne').symm
        _ < ((⌊x / ((audio.length : ℝ) / (sr : ℝ) / (k : ℝ))⌋₊ : ℝ) + 1)
            * ((audio.length : ℝ) / (sr : ℝ) / (k : ℝ)) :=
            mul_lt_mul_of_pos_right h2 hsd0

/-- Witness for C9: a one-sample recording at 1 Hz split for one speaker. -/
theorem diarization_covers_duration_witness :
    (diarization [(0 : ℝ)] 1 (some 1) (fun _ => 0)).Pairwise
        (fun a b => a.end_time ≤ b.start_time) ∧
    ∀ s ∈ diarization [(0 : ℝ)] 1 (some 1) (fun _ => 0),
      0 ≤ s.start_time ∧ s.start_time < s.end_time ∧
      s.end_time ≤ (([(0 : ℝ)].length : ℝ) / ((1 : ℕ) : ℝ)) :=
  ⟨(diarization_covers_duration [(0 : ℝ)] 1 1 (fun _ => 0)
      (by decide) (by decide) (by decide)).2.1,
   (diarization_covers_duration [(0 : ℝ)] 1 1 (fun _ => 0)
      (by decide) (by decide) (by decide)).2.2.1⟩

end SpeakerService
